import Mathlib

/-!
Verification of the ANSI styled-text rendering core of `rust-ansi-term`
(`src/display.rs`), against its design specification.

The rendering loop (`ANSIDisplaySlice::fmt`), the isolated-fragment writer
(`impl Display for ANSIDisplay`), the `From<&T>` conversion and the `paint`
constructors are embedded from `src/display.rs`.  The `Style` data type, the
`RESET` constant, `prefix`/`suffix`/`is_plain` and the difference engine
`Difference::between` live in modules of the repository that are not part of
the provided sources (`style.rs`, `ansi.rs`, `difference.rs`); those are
modelled from the specification's contract (§3, §4.1, §6 of the spec).

Displayable values are embedded at the level of their text representation:
a borrowed `T : Display` value is modelled by the `String` its `fmt`
produces.  The output sink is modelled two ways: as the pure list of chunks
the renderer writes (`ANSIDisplaySlice.fmtWrites`, flattened to a `String`
by `render`), and as a stateful fallible sink (`Sink`) threaded through
`ANSIDisplaySlice.fmtSink`, which mirrors the `?`-propagation of
`fmt::Result` in the source.
-/

/-- Modelled from the spec: the colour palette is external and opaque
("the color palette/enumeration ... treated as opaque"); all the core needs
is value equality.  We model a colour as an opaque numeric token (the
fixed-palette encoding). -/
abbrev Colour := Nat

/-- Modelled from the spec: a `Style` is "a value describing zero or more
visual attributes (e.g., bold, underline, foreground color, background
color)"; the glossary defines an attribute as "a single togglable visual
property (e.g., bold) or color slot within a style".  Eight togglable
properties plus the two optional colour slots. -/
structure Style where
  bold : Bool
  dimmed : Bool
  italic : Bool
  underline : Bool
  blink : Bool
  reverse : Bool
  hidden : Bool
  strikethrough : Bool
  foreground : Option Colour
  background : Option Colour
deriving DecidableEq, Repr

/-- Modelled from the spec: the default style has no attributes at all. -/
def Style.default : Style :=
  ⟨false, false, false, false, false, false, false, false, none, none⟩

/-- Modelled from the spec: `is_plain()` is "true iff the style has no
attributes at all", i.e. it equals the default style. -/
def Style.isPlain (s : Style) : Bool := s == Style.default

/-- Modelled from the spec: the "universal reset sequence", a single
well-known constant escape string that disables all active attributes. -/
def RESET : String := "\x1b[0m"

/-- Modelled from the spec: the numeric codes of the attributes a style
enables (standard ANSI SGR codes; colour slots use the fixed-palette
encoding).  Only used inside `Style.prefixStr`. -/
def Style.codes (s : Style) : List String :=
  (if s.bold then ["1"] else []) ++
  (if s.dimmed then ["2"] else []) ++
  (if s.italic then ["3"] else []) ++
  (if s.underline then ["4"] else []) ++
  (if s.blink then ["5"] else []) ++
  (if s.reverse then ["7"] else []) ++
  (if s.hidden then ["8"] else []) ++
  (if s.strikethrough then ["9"] else []) ++
  (match s.background with | some c => ["48;5;" ++ toString c] | none => []) ++
  (match s.foreground with | some c => ["38;5;" ++ toString c] | none => [])

/-- Modelled from the spec: `prefix()` "produces the escape sequence that
enables exactly this style's attributes"; a plain style's prefix is empty. -/
def Style.prefixStr (s : Style) : String :=
  if s.isPlain then "" else "\x1b[" ++ String.intercalate ";" s.codes ++ "m"

/-- Modelled from the spec: `suffix()` "produces the escape sequence that
fully disables styling (equivalent to a universal reset)"; a plain style's
suffix is empty. -/
def Style.suffixStr (s : Style) : String :=
  if s.isPlain then "" else RESET

/-- The tagged `Difference` union, spec §3: `NoDifference`, `ExtraStyles`
with the delta style, or `Reset`. -/
inductive Difference where
  | NoDifference : Difference
  | ExtraStyles : Style → Difference
  | Reset : Difference
deriving DecidableEq, Repr

/-- Modelled from the spec (§4.1 rule 2): `next`'s attribute set extends
`previous`'s — every togglable attribute of `previous` is on in `next`, and
"any color fields that are present in both are unchanged" (a colour slot
set in `previous` is still set, to the same colour, in `next`). -/
def Style.attrLe (first next : Style) : Bool :=
  (!first.bold || next.bold) &&
  (!first.dimmed || next.dimmed) &&
  (!first.italic || next.italic) &&
  (!first.underline || next.underline) &&
  (!first.blink || next.blink) &&
  (!first.reverse || next.reverse) &&
  (!first.hidden || next.hidden) &&
  (!first.strikethrough || next.strikethrough) &&
  (first.foreground == none || first.foreground == next.foreground) &&
  (first.background == none || first.background == next.background)

/-- Modelled from the spec (§4.1 rule 2): the delta style contains "only
the attributes present in `next` but absent in `previous`". -/
def Style.delta (first next : Style) : Style where
  bold := !first.bold && next.bold
  dimmed := !first.dimmed && next.dimmed
  italic := !first.italic && next.italic
  underline := !first.underline && next.underline
  blink := !first.blink && next.blink
  reverse := !first.reverse && next.reverse
  hidden := !first.hidden && next.hidden
  strikethrough := !first.strikethrough && next.strikethrough
  foreground := if first.foreground = next.foreground then none else next.foreground
  background := if first.background = next.background then none else next.background

/-- Modelled from the spec (§4.1, `difference.rs` is not among the provided
sources): `between(previous, next)` short-circuits to `NoDifference` on
equal styles (rules 1 and 4), classifies a strict attribute-superset with
unchanged common colour fields as `ExtraStyles(delta)` (rule 2), and every
other pair — a dropped attribute, a changed colour, or incomparable sets —
as `Reset` (rule 3). -/
def Difference.between (first next : Style) : Difference :=
  if first = next then Difference.NoDifference
  else if Style.attrLe first next then Difference.ExtraStyles (Style.delta first next)
  else Difference.Reset

/-- Embedded from `src/display.rs` (struct `ANSIDisplay`): a style paired
with a borrowed displayable value, the value modelled by its text. -/
structure ANSIDisplay where
  style : Style
  display : String
deriving DecidableEq, Repr

/-- Embedded from `src/display.rs` (`impl From<&'a T> for ANSIDisplay`):
wraps a borrowed value with the default style. -/
def ANSIDisplay.ofRef (input : String) : ANSIDisplay :=
  { style := Style.default, display := input }

/-- Embedded from `src/display.rs` (`Style::paint`). -/
def Style.paint (s : Style) (input : String) : ANSIDisplay :=
  { style := s, display := input }

/-- `slice.windows(2)` from the source loop: the list of consecutive
pairs. -/
def windows2 {α : Type} : List α → List (α × α)
  | [] => []
  | [_] => []
  | a :: b :: rest => (a, b) :: windows2 (b :: rest)

/-- Embedded from `src/display.rs` lines 115–119: the chunks written for
one consecutive pair of styles, by case on `Difference::between`. -/
def writeDifference (prev next : Style) : List String :=
  match Difference.between prev next with
  | Difference.ExtraStyles style => [style.prefixStr]
  | Difference.Reset => [RESET, next.prefixStr]
  | Difference.NoDifference => []

/-- Embedded from `src/display.rs` lines 114–122: the chunks written by the
window loop — for each pair, the transition then the second value's text. -/
def pairWrites : List (ANSIDisplay × ANSIDisplay) → List String
  | [] => []
  | (a, b) :: rest => writeDifference a.style b.style ++ [b.display] ++ pairWrites rest

/-- Embedded from `src/display.rs` lines 102–135 (`ANSIDisplaySlice::fmt`):
the ordered list of chunks the renderer writes — nothing for an empty
slice; otherwise the first fragment's prefix and text, the window loop's
chunks, and a trailing `RESET` unless the last style is plain. -/
def ANSIDisplaySlice.fmtWrites (seq : List ANSIDisplay) : List String :=
  match seq with
  | [] => []
  | first :: _ =>
    first.style.prefixStr :: first.display :: pairWrites (windows2 seq) ++
      (match seq.getLast? with
       | none => []
       | some last => if last.style.isPlain then [] else [RESET])

/-- Concatenation of emitted chunks into the final output string. -/
def strConcat : List String → String
  | [] => ""
  | s :: rest => s ++ strConcat rest

/-- The rendered output of a slice of styled fragments: the concatenation
of every chunk `ANSIDisplaySlice::fmt` writes. -/
def ANSIDisplaySlice.render (seq : List ANSIDisplay) : String :=
  strConcat (ANSIDisplaySlice.fmtWrites seq)

/-- Embedded from `src/display.rs` lines 92–98 (`impl Display for
ANSIDisplay`): the chunks written when one fragment is rendered in
isolation. -/
def ANSIDisplay.fmtWrites (d : ANSIDisplay) : List String :=
  [d.style.prefixStr, d.display, d.style.suffixStr]

/-- The rendered output of a single fragment in isolation. -/
def ANSIDisplay.render (d : ANSIDisplay) : String :=
  strConcat (ANSIDisplay.fmtWrites d)

/-- The body of the slice writer (source lines 111–122): everything
`ANSIDisplaySlice::fmt` writes before the trailing-reset step. -/
def ANSIDisplaySlice.bodyWrites (seq : List ANSIDisplay) : List String :=
  match seq with
  | [] => []
  | first :: _ => first.style.prefixStr :: first.display :: pairWrites (windows2 seq)

/-- The trailing-reset step of the slice writer (source lines 127–131):
one `RESET` chunk, unless the slice is empty or its last style is plain. -/
def ANSIDisplaySlice.trailWrites (seq : List ANSIDisplay) : List String :=
  match seq.getLast? with
  | none => []
  | some last => if last.style.isPlain then [] else [RESET]

/-- An output sink that may fail: `sink k` is `none` when the `k`-th write
call succeeds, and `some e` when it fails with error `e` (the embedding of
`fmt::Result` errors). -/
def Sink := Nat → Option String

/-- Writer state: the chunks the sink has accepted so far, and how many
write calls have been issued. -/
abbrev WState := List String × Nat

/-- One write call against the sink: on failure nothing is written and the
error is returned; on success the chunk is appended. -/
def wr (sink : Sink) (s : String) (st : WState) : WState × Option String :=
  match sink st.2 with
  | some e => (st, some e)
  | none => ((st.1 ++ [s], st.2 + 1), none)

/-- The `?` operator of the source: propagate a write error immediately,
otherwise continue. -/
def andThen (r : WState × Option String) (k : WState → WState × Option String) :
    WState × Option String :=
  match r with
  | (st, some e) => (st, some e)
  | (st, none) => k st

/-- Issue a list of write calls in order, stopping at the first failure. -/
def emitAll (sink : Sink) (l : List String) (st : WState) : WState × Option String :=
  match l with
  | [] => (st, none)
  | s :: rest => andThen (wr sink s st) (fun st1 => emitAll sink rest st1)

/-- Embedded from `src/display.rs` lines 114–122: the window loop run
against a fallible sink, propagating the first write error. -/
def fmtLoopSink (sink : Sink) : List (ANSIDisplay × ANSIDisplay) → WState → WState × Option String
  | [], st => (st, none)
  | (a, b) :: rest, st =>
    andThen
      (match Difference.between a.style b.style with
       | Difference.ExtraStyles style => wr sink style.prefixStr st
       | Difference.Reset => andThen (wr sink RESET st) (fun st1 => wr sink b.style.prefixStr st1)
       | Difference.NoDifference => (st, none))
      (fun st1 => andThen (wr sink b.display st1) (fun st2 => fmtLoopSink sink rest st2))

/-- Embedded from `src/display.rs` lines 102–135 (`ANSIDisplaySlice::fmt`)
run against a fallible sink: empty slice returns `Ok` at once; otherwise
first prefix, first text, the window loop, then the conditional trailing
reset — every write through the error-propagating `?`. -/
def ANSIDisplaySlice.fmtSink (sink : Sink) (seq : List ANSIDisplay) (st : WState) :
    WState × Option String :=
  match seq with
  | [] => (st, none)
  | first :: _ =>
    andThen (wr sink first.style.prefixStr st) fun st1 =>
    andThen (wr sink first.display st1) fun st2 =>
    andThen (fmtLoopSink sink (windows2 seq) st2) fun st3 =>
    match seq.getLast? with
    | none => (st3, none)
    | some last => if last.style.isPlain then (st3, none) else wr sink RESET st3

/-- A sink whose writes all succeed. -/
def okSink : Sink := fun _ => none

/-- Follows the claim's words (C1 / spec §4.3 step 3): for each consecutive
pair, "exactly one transition determined by `Difference::between` applied
to the pair's styles — the delta style's prefix when the result is
`ExtraStyles(delta)`, the universal reset followed by the next fragment's
full style prefix when the result is `Reset`, and nothing when the result
is `NoDifference` — followed by the next fragment's value text". -/
def specPairs (prev : ANSIDisplay) : List ANSIDisplay → String
  | [] => ""
  | next :: rest =>
    (match Difference.between prev.style next.style with
     | Difference.ExtraStyles d => d.prefixStr
     | Difference.Reset => RESET ++ next.style.prefixStr
     | Difference.NoDifference => "") ++ next.display ++ specPairs next rest

/-- An attribute in the sense of the spec's glossary: "a single togglable
visual property (e.g., bold) or color slot within a style". -/
inductive Attr where
  | bold | dimmed | italic | underline | blink | reverse | hidden | strikethrough
  | fg (c : Colour)
  | bg (c : Colour)
deriving DecidableEq, Repr

/-- The set of attributes a style specifies, in the spec's sense: the
togglable properties that are on plus the occupied colour slots with their
colours. -/
def Style.attrSet (s : Style) : Finset Attr :=
  (if s.bold then {Attr.bold} else ∅) ∪
  (if s.dimmed then {Attr.dimmed} else ∅) ∪
  (if s.italic then {Attr.italic} else ∅) ∪
  (if s.underline then {Attr.underline} else ∅) ∪
  (if s.blink then {Attr.blink} else ∅) ∪
  (if s.reverse then {Attr.reverse} else ∅) ∪
  (if s.hidden then {Attr.hidden} else ∅) ∪
  (if s.strikethrough then {Attr.strikethrough} else ∅) ∪
  (match s.foreground with | some c => {Attr.fg c} | none => ∅) ∪
  (match s.background with | some c => {Attr.bg c} | none => ∅)

/-- A bold style, used as concrete input by witnesses. -/
def boldStyle : Style := { Style.default with bold := true }

/-- A bold-and-underline style, used as concrete input by witnesses. -/
def boldUnderline : Style := { Style.default with bold := true, underline := true }

theorem andThen_pure (r : WState × Option String) : andThen r (fun st => (st, none)) = r := by
  rcases r with ⟨st, e⟩
  cases e <;> rfl

theorem andThen_assoc (r : WState × Option String) (k1 : WState → WState × Option String)
    (k2 : WState → WState × Option String) :
    andThen (andThen r k1) k2 = andThen r (fun st => andThen (k1 st) k2) := by
  rcases r with ⟨st, e⟩
  cases e <;> rfl

theorem emitAll_append (sink : Sink) (l1 l2 : List String) (st : WState) :
    emitAll sink (l1 ++ l2) st = andThen (emitAll sink l1 st) (fun st1 => emitAll sink l2 st1) := by
  induction l1 generalizing st with
  | nil => simp [emitAll, andThen]
  | cons s rest ih =>
    show andThen (wr sink s st) _ = andThen (andThen (wr sink s st) _) _
    rw [andThen_assoc]
    rcases h : wr sink s st with ⟨st1, e⟩
    cases e <;> simp [andThen, ih]

theorem emitAll_singleton (sink : Sink) (s : String) (st : WState) :
    emitAll sink [s] st = wr sink s st := by
  show andThen (wr sink s st) _ = wr sink s st
  rcases h : wr sink s st with ⟨st1, e⟩
  cases e <;> simp [andThen, emitAll]

theorem fmtLoopSink_eq_emitAll (sink : Sink) (ps : List (ANSIDisplay × ANSIDisplay))
    (st : WState) : fmtLoopSink sink ps st = emitAll sink (pairWrites ps) st := by
  induction ps generalizing st with
  | nil => rfl
  | cons p rest ih =>
    rcases p with ⟨a, b⟩
    rcases hd : Difference.between a.style b.style with _ | d | _ <;>
      (simp only [fmtLoopSink, pairWrites, writeDifference, hd, andThen_assoc]
       simp [emitAll, andThen, ih])

theorem fmtWrites_eq_body_trail (seq : List ANSIDisplay) :
    ANSIDisplaySlice.fmtWrites seq =
      ANSIDisplaySlice.bodyWrites seq ++ ANSIDisplaySlice.trailWrites seq := by
  cases seq with
  | nil => rfl
  | cons first rest =>
    simp [ANSIDisplaySlice.fmtWrites, ANSIDisplaySlice.bodyWrites, ANSIDisplaySlice.trailWrites]

theorem fmtSink_eq_emitAll (sink : Sink) (seq : List ANSIDisplay) (st : WState) :
    ANSIDisplaySlice.fmtSink sink seq st = emitAll sink (ANSIDisplaySlice.fmtWrites seq) st := by
  cases seq with
  | nil => rfl
  | cons first rest =>
    rw [ANSIDisplaySlice.fmtSink, ANSIDisplaySlice.fmtWrites]
    show andThen (wr sink first.style.prefixStr st) _ = andThen (wr sink first.style.prefixStr st) _
    congr 1
    funext st1
    show andThen (wr sink first.display st1) _ = andThen (wr sink first.display st1) _
    congr 1
    funext st2
    simp only [List.append_eq]
    rw [emitAll_append, fmtLoopSink_eq_emitAll]
    congr 1
    funext st3
    cases hl : (first :: rest).getLast? with
    | none => rfl
    | some last =>
      by_cases hp : last.style.isPlain
      · simp [hp, emitAll]
      · simp [hp, emitAll_singleton]

theorem strConcat_append (l1 l2 : List String) :
    strConcat (l1 ++ l2) = strConcat l1 ++ strConcat l2 := by
  induction l1 with
  | nil => simp [strConcat, String.empty_append]
  | cons s rest ih => simp [strConcat, ih, String.append_assoc]

theorem strConcat_pairWrites (prev : ANSIDisplay) (rest : List ANSIDisplay) :
    strConcat (pairWrites (windows2 (prev :: rest))) = specPairs prev rest := by
  induction rest generalizing prev with
  | nil => rfl
  | cons next rest2 ih =>
    rw [windows2, pairWrites, specPairs, strConcat_append, strConcat_append, ih]
    rcases hd : Difference.between prev.style next.style with _ | d | _ <;>
      simp [writeDifference, hd, strConcat, String.append_assoc, String.append_empty,
        String.empty_append]

theorem emitAll_ok (sink : Sink) (h : ∀ k, sink k = none) (ws : List String)
    (out : List String) (n : Nat) :
    emitAll sink ws (out, n) = ((out ++ ws, n + ws.length), none) := by
  induction ws generalizing out n with
  | nil => simp [emitAll]
  | cons s rest ih =>
    simp only [emitAll, wr, h, andThen, ih]
    simp [Nat.add_comm, Nat.add_assoc, Nat.add_left_comm]

theorem emitAll_stops (sink : Sink) (e : String) (ws : List String)
    (out : List String) (n j : Nat)
    (hj : j < ws.length) (hfail : sink (n + j) = some e)
    (hok : ∀ i, i < j → sink (n + i) = none) :
    emitAll sink ws (out, n) = ((out ++ ws.take j, n + j), some e) := by
  induction ws generalizing out n j with
  | nil => simp at hj
  | cons s rest ih =>
    cases j with
    | zero =>
      simp only [Nat.add_zero] at hfail
      simp [emitAll, wr, hfail, andThen]
    | succ j2 =>
      have h0 : sink n = none := by simpa using hok 0 (Nat.succ_pos j2)
      have hf2 : sink (n + 1 + j2) = some e := by
        have heq : n + 1 + j2 = n + (j2 + 1) := by omega
        rw [heq]; exact hfail
      have hok2 : ∀ i, i < j2 → sink (n + 1 + i) = none := by
        intro i hi
        have heq : n + 1 + i = n + (i + 1) := by omega
        rw [heq]; exact hok (i + 1) (by omega)
      have hj2 : j2 < rest.length := by simpa using hj
      simp only [emitAll, wr, h0, andThen]
      rw [ih (out ++ [s]) (n + 1) j2 hj2 hf2 hok2]
      simp [List.append_assoc, Nat.add_comm, Nat.add_assoc, Nat.add_left_comm]

theorem mem_ite_singleton (a b : Attr) (c : Bool) :
    (a ∈ if c then ({b} : Finset Attr) else ∅) ↔ (c = true ∧ a = b) := by
  cases c <;> simp

theorem mem_fg_part (a : Attr) (o : Option Colour) :
    (a ∈ match o with | some c => ({Attr.fg c} : Finset Attr) | none => ∅) ↔
      (∃ c, o = some c ∧ a = Attr.fg c) := by
  cases o <;> simp

theorem mem_bg_part (a : Attr) (o : Option Colour) :
    (a ∈ match o with | some c => ({Attr.bg c} : Finset Attr) | none => ∅) ↔
      (∃ c, o = some c ∧ a = Attr.bg c) := by
  cases o <;> simp

theorem attrSet_bold (s : Style) : Attr.bold ∈ s.attrSet ↔ s.bold = true := by
  simp [Style.attrSet, Finset.mem_union, mem_ite_singleton, mem_fg_part, mem_bg_part]

theorem attrSet_dimmed (s : Style) : Attr.dimmed ∈ s.attrSet ↔ s.dimmed = true := by
  simp [Style.attrSet, Finset.mem_union, mem_ite_singleton, mem_fg_part, mem_bg_part]

theorem attrSet_italic (s : Style) : Attr.italic ∈ s.attrSet ↔ s.italic = true := by
  simp [Style.attrSet, Finset.mem_union, mem_ite_singleton, mem_fg_part, mem_bg_part]

theorem attrSet_underline (s : Style) : Attr.underline ∈ s.attrSet ↔ s.underline = true := by
  simp [Style.attrSet, Finset.mem_union, mem_ite_singleton, mem_fg_part, mem_bg_part]

theorem attrSet_blink (s : Style) : Attr.blink ∈ s.attrSet ↔ s.blink = true := by
  simp [Style.attrSet, Finset.mem_union, mem_ite_singleton, mem_fg_part, mem_bg_part]

theorem attrSet_reverse (s : Style) : Attr.reverse ∈ s.attrSet ↔ s.reverse = true := by
  simp [Style.attrSet, Finset.mem_union, mem_ite_singleton, mem_fg_part, mem_bg_part]

theorem attrSet_hidden (s : Style) : Attr.hidden ∈ s.attrSet ↔ s.hidden = true := by
  simp [Style.attrSet, Finset.mem_union, mem_ite_singleton, mem_fg_part, mem_bg_part]

theorem attrSet_strikethrough (s : Style) :
    Attr.strikethrough ∈ s.attrSet ↔ s.strikethrough = true := by
  simp [Style.attrSet, Finset.mem_union, mem_ite_singleton, mem_fg_part, mem_bg_part]

theorem attrSet_fg (s : Style) (c : Colour) :
    Attr.fg c ∈ s.attrSet ↔ s.foreground = some c := by
  simp [Style.attrSet, Finset.mem_union, mem_ite_singleton, mem_fg_part, mem_bg_part]

theorem attrSet_bg (s : Style) (c : Colour) :
    Attr.bg c ∈ s.attrSet ↔ s.background = some c := by
  simp [Style.attrSet, Finset.mem_union, mem_ite_singleton, mem_fg_part, mem_bg_part]

theorem impl_toOr (a b : Bool) (h : a = true → b = true) : (!a || b) = true := by
  cases a
  · rfl
  · simp [h rfl]

/-- The delta style's attribute set is always the set difference of the two
styles' attribute sets. -/
theorem delta_attrSet (s1 s2 : Style) :
    (Style.delta s1 s2).attrSet = s2.attrSet \ s1.attrSet := by
  ext a
  rw [Finset.mem_sdiff]
  cases a <;>
    simp only [attrSet_bold, attrSet_dimmed, attrSet_italic, attrSet_underline, attrSet_blink,
      attrSet_reverse, attrSet_hidden, attrSet_strikethrough, attrSet_fg, attrSet_bg,
      Style.delta, Bool.and_eq_true, Bool.not_eq_true']
  case bold => constructor
               · intro ⟨h1, h2⟩; exact ⟨h2, by simp [h1]⟩
               · intro ⟨h1, h2⟩; exact ⟨by simpa using h2, h1⟩
  case dimmed => constructor
                 · intro ⟨h1, h2⟩; exact ⟨h2, by simp [h1]⟩
                 · intro ⟨h1, h2⟩; exact ⟨by simpa using h2, h1⟩
  case italic => constructor
                 · intro ⟨h1, h2⟩; exact ⟨h2, by simp [h1]⟩
                 · intro ⟨h1, h2⟩; exact ⟨by simpa using h2, h1⟩
  case underline => constructor
                    · intro ⟨h1, h2⟩; exact ⟨h2, by simp [h1]⟩
                    · intro ⟨h1, h2⟩; exact ⟨by simpa using h2, h1⟩
  case blink => constructor
                · intro ⟨h1, h2⟩; exact ⟨h2, by simp [h1]⟩
                · intro ⟨h1, h2⟩; exact ⟨by simpa using h2, h1⟩
  case reverse => constructor
                  · intro ⟨h1, h2⟩; exact ⟨h2, by simp [h1]⟩
                  · intro ⟨h1, h2⟩; exact ⟨by simpa using h2, h1⟩
  case hidden => constructor
                 · intro ⟨h1, h2⟩; exact ⟨h2, by simp [h1]⟩
                 · intro ⟨h1, h2⟩; exact ⟨by simpa using h2, h1⟩
  case strikethrough => constructor
                        · intro ⟨h1, h2⟩; exact ⟨h2, by simpa using h1⟩
                        · intro ⟨h1, h2⟩; exact ⟨by simpa using h2, h1⟩
  case fg c =>
    by_cases hc : s1.foreground = s2.foreground
    · simp only [hc, if_pos rfl]
      constructor
      · intro h; exact absurd h (by simp)
      · intro ⟨h1, h2⟩; exact absurd h1 h2
    · rw [if_neg hc]
      constructor
      · intro h1
        refine ⟨h1, fun h2 => hc ?_⟩
        rw [h1, h2]
      · intro ⟨h1, _⟩; exact h1
  case bg c =>
    by_cases hc : s1.background = s2.background
    · simp only [hc, if_pos rfl]
      constructor
      · intro h; exact absurd h (by simp)
      · intro ⟨h1, h2⟩; exact absurd h1 h2
    · rw [if_neg hc]
      constructor
      · intro h1
        refine ⟨h1, fun h2 => hc ?_⟩
        rw [h1, h2]
      · intro ⟨h1, _⟩; exact h1

/-- A strict attribute-superset makes `attrLe` true. -/
theorem attrLe_of_ssubset (s1 s2 : Style) (hsub : s1.attrSet ⊆ s2.attrSet) :
    Style.attrLe s1 s2 = true := by
  rw [Style.attrLe]
  simp only [Bool.and_eq_true]
  refine ⟨⟨⟨⟨⟨⟨⟨⟨⟨?_, ?_⟩, ?_⟩, ?_⟩, ?_⟩, ?_⟩, ?_⟩, ?_⟩, ?_⟩, ?_⟩
  · exact impl_toOr _ _ fun h => (attrSet_bold s2).1 (hsub ((attrSet_bold s1).2 h))
  · exact impl_toOr _ _ fun h => (attrSet_dimmed s2).1 (hsub ((attrSet_dimmed s1).2 h))
  · exact impl_toOr _ _ fun h => (attrSet_italic s2).1 (hsub ((attrSet_italic s1).2 h))
  · exact impl_toOr _ _ fun h => (attrSet_underline s2).1 (hsub ((attrSet_underline s1).2 h))
  · exact impl_toOr _ _ fun h => (attrSet_blink s2).1 (hsub ((attrSet_blink s1).2 h))
  · exact impl_toOr _ _ fun h => (attrSet_reverse s2).1 (hsub ((attrSet_reverse s1).2 h))
  · exact impl_toOr _ _ fun h => (attrSet_hidden s2).1 (hsub ((attrSet_hidden s1).2 h))
  · exact impl_toOr _ _ fun h =>
      (attrSet_strikethrough s2).1 (hsub ((attrSet_strikethrough s1).2 h))
  · rcases hc : s1.foreground with _ | c
    · simp
    · have := (attrSet_fg s2 c).1 (hsub ((attrSet_fg s1 c).2 hc))
      simp [this]
  · rcases hc : s1.background with _ | c
    · simp
    · have := (attrSet_bg s2 c).1 (hsub ((attrSet_bg s1 c).2 hc))
      simp [this]

/-- C1: for every non-empty sequence of styled fragments, rendering emits
the first fragment's style prefix and the first value's text, and then for
each consecutive pair, in order, exactly one transition determined by
`Difference::between` applied to the pair's styles — the delta style's
prefix for `ExtraStyles(delta)`, the universal reset followed by the next
fragment's full style prefix for `Reset`, nothing for `NoDifference` —
followed by the next fragment's value text (and finally the code's
trailing-reset step, which claim C2 describes). -/
theorem render_follows_diff_transitions (first : ANSIDisplay) (rest : List ANSIDisplay) :
    ANSIDisplaySlice.render (first :: rest) =
      first.style.prefixStr ++ first.display ++ specPairs first rest ++
        strConcat (ANSIDisplaySlice.trailWrites (first :: rest)) := by
  rw [ANSIDisplaySlice.render, fmtWrites_eq_body_trail, strConcat_append,
    ANSIDisplaySlice.bodyWrites]
  rw [strConcat, strConcat, strConcat_pairWrites]
  simp [String.append_assoc]

/-- C2: for every non-empty sequence, the emitted chunk list ends with
exactly one trailing universal reset if and only if the last fragment's
style is not plain; when the last style is plain, no trailing reset is
emitted. -/
theorem trailing_reset_iff_not_plain (seq : List ANSIDisplay) (lastFrag : ANSIDisplay)
    (h : seq.getLast? = some lastFrag) :
    (lastFrag.style.isPlain = false →
        ANSIDisplaySlice.fmtWrites seq = ANSIDisplaySlice.bodyWrites seq ++ [RESET]) ∧
    (lastFrag.style.isPlain = true →
        ANSIDisplaySlice.fmtWrites seq = ANSIDisplaySlice.bodyWrites seq) := by
  constructor <;> intro hp <;>
    rw [fmtWrites_eq_body_trail, ANSIDisplaySlice.trailWrites, h] <;> simp [hp]

/-- Witness for C2 at a concrete input: a single bold fragment gets the
trailing reset. -/
theorem trailing_reset_iff_not_plain_witness :
    ANSIDisplaySlice.fmtWrites [Style.paint boldStyle "A"] =
      ANSIDisplaySlice.bodyWrites [Style.paint boldStyle "A"] ++ [RESET] :=
  (trailing_reset_iff_not_plain [Style.paint boldStyle "A"] (Style.paint boldStyle "A")
    (by decide)).1 (by decide)

/-- C3: when `s1 ≠ s2` and `s2`'s attribute set is a strict superset of
`s1`'s (which in particular leaves every colour field present in both
unchanged), `Difference::between(s1, s2)` is `ExtraStyles(delta)` where
`delta`'s attribute set is exactly the set difference of `s2`'s attributes
minus `s1`'s. -/
theorem between_strict_superset (s1 s2 : Style) (hne : s1 ≠ s2)
    (hsub : s1.attrSet ⊂ s2.attrSet) :
    Difference.between s1 s2 = Difference.ExtraStyles (Style.delta s1 s2) ∧
      (Style.delta s1 s2).attrSet = s2.attrSet \ s1.attrSet := by
  refine ⟨?_, delta_attrSet s1 s2⟩
  rw [Difference.between, if_neg hne, if_pos (attrLe_of_ssubset s1 s2 hsub.subset)]

/-- Witness for C3 at a concrete input: bold against bold-and-underline. -/
theorem between_strict_superset_witness :
    Difference.between boldStyle boldUnderline
        = Difference.ExtraStyles (Style.delta boldStyle boldUnderline) ∧
      (Style.delta boldStyle boldUnderline).attrSet =
        boldUnderline.attrSet \ boldStyle.attrSet :=
  between_strict_superset boldStyle boldUnderline (by decide) (by decide)

/-- C4: for every style `s`, `Difference::between(s, s)` is
`NoDifference`. -/
theorem between_self (s : Style) : Difference.between s s = Difference.NoDifference := by
  simp [Difference.between]

/-- C5: rendering an empty sequence produces the empty output string, and
against any sink it writes nothing and returns successfully. -/
theorem render_empty :
    ANSIDisplaySlice.render [] = "" ∧
      ∀ (sink : Sink) (st : WState), ANSIDisplaySlice.fmtSink sink [] st = (st, none) :=
  ⟨rfl, fun _ _ => rfl⟩

/-- C6: rendering a single `StyledValue` in isolation produces exactly its
style's prefix, then the value's text, then its style's suffix. -/
theorem render_isolated (d : ANSIDisplay) :
    ANSIDisplay.render d = d.style.prefixStr ++ d.display ++ d.style.suffixStr := by
  rw [ANSIDisplay.render, ANSIDisplay.fmtWrites]
  simp [strConcat, String.append_assoc, String.append_empty]

/-- C7: a sequence of two fragments whose styles are both plain renders as
exactly the concatenation of the two value texts, with no control bytes. -/
theorem render_two_plain (s1 s2 : Style) (t1 t2 : String)
    (h1 : s1.isPlain = true) (h2 : s2.isPlain = true) :
    ANSIDisplaySlice.render [Style.paint s1 t1, Style.paint s2 t2] = t1 ++ t2 := by
  have e1 : s1 = Style.default := by simpa [Style.isPlain] using h1
  have e2 : s2 = Style.default := by simpa [Style.isPlain] using h2
  subst e1; subst e2
  rw [ANSIDisplaySlice.render]
  simp [ANSIDisplaySlice.fmtWrites, pairWrites, windows2, writeDifference, Difference.between,
    Style.paint, Style.prefixStr, Style.isPlain, strConcat, String.append_empty,
    String.empty_append]

/-- Witness for C7 at the spec's concrete input: plain "one" and "two"
render as exactly "onetwo". -/
theorem render_two_plain_witness :
    ANSIDisplaySlice.render [Style.paint Style.default "one", Style.paint Style.default "two"]
      = "onetwo" := by
  have h := render_two_plain Style.default Style.default "one" "two" (by decide) (by decide)
  rw [h]
  decide

/-- C8: rendering is deterministic and touches no state beyond its explicit
inputs: against an always-succeeding sink, a render appends exactly the
chunk list `fmtWrites seq` whatever the sink's prior state, so two renders
of the same sequence back to back each append byte-identical output. -/
theorem render_deterministic (seq : List ANSIDisplay) (l : List String) (n : Nat) :
    ANSIDisplaySlice.fmtSink okSink seq (l, n)
        = ((l ++ ANSIDisplaySlice.fmtWrites seq,
            n + (ANSIDisplaySlice.fmtWrites seq).length), none) ∧
      ANSIDisplaySlice.fmtSink okSink seq
          (l ++ ANSIDisplaySlice.fmtWrites seq, n + (ANSIDisplaySlice.fmtWrites seq).length)
        = ((l ++ ANSIDisplaySlice.fmtWrites seq ++ ANSIDisplaySlice.fmtWrites seq,
            n + (ANSIDisplaySlice.fmtWrites seq).length
              + (ANSIDisplaySlice.fmtWrites seq).length), none) := by
  have hok : ∀ k, okSink k = none := fun _ => rfl
  constructor <;> rw [fmtSink_eq_emitAll, emitAll_ok okSink hok]

/-- C9: rendering has no failure mode of its own — if every write to the
sink succeeds it returns success having written every chunk; if the first
failing write is the `j`-th, the sink's error is returned unchanged, the
chunks before `j` have been written, and nothing after the failing write is
attempted. -/
theorem render_error_propagation (seq : List ANSIDisplay) (sink : Sink) :
    ((∀ k, sink k = none) →
        ANSIDisplaySlice.fmtSink sink seq ([], 0)
          = ((ANSIDisplaySlice.fmtWrites seq,
              (ANSIDisplaySlice.fmtWrites seq).length), none)) ∧
    (∀ (j : Nat) (e : String),
        j < (ANSIDisplaySlice.fmtWrites seq).length → sink j = some e →
        (∀ i, i < j → sink i = none) →
        ANSIDisplaySlice.fmtSink sink seq ([], 0)
          = (((ANSIDisplaySlice.fmtWrites seq).take j, j), some e)) := by
  constructor
  · intro hok
    rw [fmtSink_eq_emitAll, emitAll_ok sink hok]
    simp
  · intro j e hj hf hok
    rw [fmtSink_eq_emitAll,
      emitAll_stops sink e _ [] 0 j hj (by simpa using hf) (fun i hi => by simpa using hok i hi)]
    simp

/-- Witness for C9 at a concrete input: a sink whose second write fails
with "boom" aborts the render of one bold fragment after its first chunk,
returning the error unchanged. -/
theorem render_error_propagation_witness :
    ANSIDisplaySlice.fmtSink (fun k => if k = 1 then some "boom" else none)
        [Style.paint boldStyle "A"] ([], 0)
      = (((ANSIDisplaySlice.fmtWrites [Style.paint boldStyle "A"]).take 1, 1), some "boom") :=
  (render_error_propagation [Style.paint boldStyle "A"]
      (fun k => if k = 1 then some "boom" else none)).2 1 "boom"
    (by decide) (by decide)
    (fun i hi => by
      have h0 : i = 0 := by omega
      simp [h0])

/-- C10: the `From<&T>` conversion yields a `StyledValue` whose style is
the default style (which is plain) and whose borrowed value is the input,
without going through `paint`. -/
theorem ofRef_default_style (v : String) :
    (ANSIDisplay.ofRef v).style = Style.default ∧
      (ANSIDisplay.ofRef v).style.isPlain = true ∧
      (ANSIDisplay.ofRef v).display = v :=
  ⟨rfl, rfl, rfl⟩
